import Mathlib

/-!
Verification of `scripts/validate_eco_lite.py`, a dev-only validator for the
ECO-lite chess opening dataset.  The script's `main` reads a JSON file,
parses it, checks that the root is an array, that every entry is an object
with keys `eco`/`name`/`moves`, that no two entries share the same `moves`
value, and on success prints the entry count and the UTF-8 byte size of the
file text.

The shallow embedding below models the pipeline from the point where the
file content and the parse outcome are given: file I/O and the JSON parser
(`json.loads`) are external library calls, so they enter the model as an
input (`LoadOutcome`).  Everything after that point is translated directly
from the Python source.
-/

namespace EcoLite

/-- A parsed JSON value as produced by Python's `json.loads`: `None`, `bool`,
number, `str`, `list`, `dict`.  JSON numbers are modelled as integers; no
claim under study involves non-integer numbers. -/
inductive JVal where
  | null : JVal
  | bool (b : Bool) : JVal
  | num (n : Int) : JVal
  | str (s : String) : JVal
  | arr (elems : List JVal) : JVal
  | obj (fields : List (String × JVal)) : JVal

/-- The outcome of the `try` block in `main` (lines 20-25 of the script):
`content = data_path.read_text(...)` may raise an I/O or decode error, and
`data = json.loads(content)` may raise a JSON parse error.  Both are caught
by the same `except Exception` handler; they are distinct exception kinds
carrying the exception's message.  On success both the raw text and the
parsed value are available. -/
inductive LoadOutcome where
  | ioError (msg : String) : LoadOutcome
  | parseError (msg : String) : LoadOutcome
  | ok (content : String) (data : JVal) : LoadOutcome

/-- The single-quote character, `chr 39`. -/
def sq : Char := Char.ofNat 39

/-- The double-quote character, `chr 34`. -/
def dq : Char := Char.ofNat 34

/-- Python `key in entry` for a dict built by `json.loads` from an object
with these fields. -/
def hasKey (fields : List (String × JVal)) (k : String) : Bool :=
  fields.any (fun kv => kv.1 = k)

/-- Python `entry[k]` on a dict built by `json.loads`: when the JSON object
text repeats a key, the later value overwrites the earlier one, so lookup
returns the last occurrence. -/
def jLookup (fields : List (String × JVal)) (k : String) : Option JVal :=
  (fields.filter (fun kv => kv.1 = k)).getLast?.map Prod.snd

/-- The required keys, in the order the script checks them (line 36). -/
def requiredKeys : List String := ["eco", "name", "moves"]

/-- One iteration of the field-check loop (lines 32-39): the index is
recorded when the entry is not a dict, or when some required key is
absent. -/
def entryMissing : JVal → Bool
  | .obj fields => requiredKeys.any (fun k => !(hasKey fields k))
  | _ => true

/-- The field-check loop of lines 31-39, started at index `k`: it walks the
whole list in one pass and appends the index of every failing entry. -/
def missingFrom : Nat → List JVal → List Nat
  | _, [] => []
  | k, e :: rest =>
      if entryMissing e then k :: missingFrom (k + 1) rest
      else missingFrom (k + 1) rest

/-- `missing` as computed by lines 31-39: the indices of all failing
entries, in array order. -/
def missingIndices (entries : List JVal) : List Nat :=
  missingFrom 0 entries

/-- `entry["moves"]` for each entry (line 45).  The duplicate stage is only
reached when the field check passed, so every entry is a dict containing
`"moves"`; `filterMap` is total and agrees with the script there. -/
def getMoves : JVal → Option JVal
  | .obj fields => jLookup fields "moves"
  | _ => none

/-- The list `[entry["moves"] for entry in data]` fed to `Counter`. -/
def movesValues (entries : List JVal) : List JVal :=
  entries.filterMap getMoves

/-- Whether a `json.loads` value is hashable in Python: lists and dicts are
not, every other JSON value is.  `Counter` hashes each element; the first
unhashable one raises `TypeError`. -/
def jhashable : JVal → Bool
  | .arr _ => false
  | .obj _ => false
  | _ => true

/-- The Python type name of a value, as it appears in the `TypeError`
message for unhashable values. -/
def pyTypeName : JVal → String
  | .null => "NoneType"
  | .bool _ => "bool"
  | .num _ => "int"
  | .str _ => "str"
  | .arr _ => "list"
  | .obj _ => "dict"

/-- Python `==` on the hashable JSON values (the only ones `Counter`
compares): `True == 1` and `False == 0`, strings compare by exact
case-sensitive equality.  Lists and dicts never reach a comparison because
hashing them raises first; the model returns `false` for them. -/
def pyEq : JVal → JVal → Bool
  | .null, .null => true
  | .bool b, .bool c => b = c
  | .bool b, .num n => (if b then (1 : Int) else 0) = n
  | .num n, .bool b => n = (if b then (1 : Int) else 0)
  | .num n, .num m => n = m
  | .str s, .str t => s = t
  | _, _ => false

/-- Number of occurrences of `v` in `l` under Python equality: the count
`Counter` stores for the key `v`. -/
def pyCount (v : JVal) (l : List JVal) : Nat :=
  (l.filter (fun x => pyEq x v)).length

/-- Recursion kernel for `counterKeys`: one unit of fuel is spent per kept
key, and filtering only shortens the list, so `l.length` fuel always
suffices; the `0` case with a non-empty list is unreachable. -/
def counterKeysFuel : Nat → List JVal → List JVal
  | _, [] => []
  | 0, _ :: _ => []
  | fuel + 1, v :: rest => v :: counterKeysFuel fuel (rest.filter (fun x => !pyEq x v))

/-- The keys of `Counter(l)` in iteration order: first occurrences, in
insertion order (Python dicts preserve insertion order). -/
def counterKeys (l : List JVal) : List JVal :=
  counterKeysFuel l.length l

/-- Line 46: `[moves for moves, count in move_counts.items() if count > 1]`,
the distinct duplicated values in first-occurrence order. -/
def pyDuplicates (l : List JVal) : List JVal :=
  (counterKeys l).filter (fun v => 1 < pyCount v l)

/-- The structured outcome of `main` after a successful load and parse:
which stage failed (or succeeded), with the data each stage reports.
`uncaught` is an exception that escapes `main` (no handler covers the
checks after the `try` block). -/
inductive Outcome where
  | loadFail (msg : String) : Outcome
  | shapeFail : Outcome
  | fieldFail (idxs : List Nat) : Outcome
  | dupFail (dups : List JVal) : Outcome
  | uncaught (msg : String) : Outcome
  | success (count : Nat) (byteSize : Nat) : Outcome

/-- Lines 27-54 of `main`: shape check, field check, duplicate check,
report.  `content.utf8ByteSize` is `len(content.encode("utf-8"))`. -/
def runChecks (content : String) (data : JVal) : Outcome :=
  match data with
  | .arr entries =>
      let miss := missingIndices entries
      if miss.isEmpty then
        let mvs := movesValues entries
        match mvs.find? (fun v => !jhashable v) with
        | some v =>
            .uncaught ("unhashable type: " ++ sq.toString ++ pyTypeName v ++ sq.toString)
        | none =>
            let dups := pyDuplicates mvs
            if dups.isEmpty then .success entries.length content.utf8ByteSize
            else .dupFail dups
      else .fieldFail miss
  | _ => .shapeFail

/-- The whole of `main` as a function of the load/parse outcome: both
exception kinds of the `try` block land in the same handler (lines 23-25),
which formats the exception's message; afterwards the checks run. -/
def mainOutcome : LoadOutcome → Outcome
  | .ioError msg => .loadFail msg
  | .parseError msg => .loadFail msg
  | .ok content data => runChecks content data

/-- The dataset path the script resolves relative to its own location
(line 19).  Its exact value depends on where the repo is checked out; only
its presence in the load-failure message matters here. -/
def dataPath : String := "assets/data/eco_lite.json"

/-- Python `repr` of a string restricted to the characters involved here:
escape backslashes and the active quote, pick double quotes when the text
contains a single quote but no double quote, single quotes otherwise. -/
def pyStrReprWith (quote : Char) (s : String) : String :=
  s.data.foldl
    (fun acc c =>
      acc ++ (if c = Char.ofNat 92 then String.mk [Char.ofNat 92, Char.ofNat 92]
              else if c = quote then String.mk [Char.ofNat 92, quote]
              else c.toString))
    ""

/-- Python `repr` of a string value. -/
def pyStrRepr (s : String) : String :=
  if s.data.contains sq && !(s.data.contains dq) then
    dq.toString ++ pyStrReprWith dq s ++ dq.toString
  else
    sq.toString ++ pyStrReprWith sq s ++ sq.toString

/-- Python `repr` of a hashable JSON value, as it appears inside the
duplicate-list message. -/
def pyReprJVal : JVal → String
  | .null => "None"
  | .bool true => "True"
  | .bool false => "False"
  | .num n => toString n
  | .str s => pyStrRepr s
  | .arr _ => "<list>"
  | .obj _ => "<dict>"

/-- Python `str` of a list given the rendering of its elements:
`[a, b, c]`. -/
def pyListStr (items : List String) : String :=
  "[" ++ String.intercalate ", " items ++ "]"

/-- The observable result of one run: the exit code of the process, the
lines printed to stdout, and the lines printed to stderr. -/
structure RunResult where
  exitCode : Nat
  stdout : List String
  stderr : List String
deriving DecidableEq, Repr

/-- The messages `main` prints for each outcome, and the exit code
(lines 24, 28, 42, 48, 52-54).  An uncaught exception makes the
interpreter print a traceback to stderr and exit with code 1. -/
def render : Outcome → RunResult
  | .loadFail msg =>
      ⟨1, [], ["Failed to load " ++ dataPath ++ ": " ++ msg]⟩
  | .shapeFail =>
      ⟨1, [], ["Dataset root must be a JSON array."]⟩
  | .fieldFail idxs =>
      ⟨1, [], ["Entries missing required keys: " ++ pyListStr (idxs.map toString)]⟩
  | .dupFail dups =>
      ⟨1, [], ["Duplicate move strings found (" ++ toString dups.length ++ "): "
                ++ pyListStr (dups.map pyReprJVal)]⟩
  | .uncaught msg =>
      ⟨1, [], ["Traceback (most recent call last):", "TypeError: " ++ msg]⟩
  | .success count byteSize =>
      ⟨0, ["ECO-lite entries: " ++ toString count,
           "Approximate file size: " ++ toString byteSize ++ " bytes"], []⟩

/-- One full run of the script, from load outcome to observable result. -/
def mainRun (l : LoadOutcome) : RunResult :=
  render (mainOutcome l)

/-! ### Predicates used to state the claims -/

/-- Whether a value is a JSON string. -/
def isStr : JVal → Bool
  | .str _ => true
  | _ => false

/-- Whether a value is a JSON array. -/
def isArr : JVal → Bool
  | .arr _ => true
  | _ => false

/-- Pairwise distinctness under Python equality: no element is `==`-equal
to a later one.  For string values this is exact case-sensitive
distinctness of the strings. -/
def allDistinct : List JVal → Bool
  | [] => true
  | v :: rest => !(rest.any (fun x => pyEq x v)) && allDistinct rest

/-- The loads on which `main` never reaches an unhashable `moves` value:
every `moves` value of an array root is a hashable (scalar) JSON value. -/
def movesHashable : LoadOutcome → Bool
  | .ok _ (.arr entries) => (movesValues entries).all jhashable
  | _ => true

/-- The propagation policy the spec states for error reporting: either
exit code 0 with nothing on stderr, or exit code 1 with exactly one
diagnostic line on stderr and nothing on stdout. -/
def wellRendered (r : RunResult) : Prop :=
  (r.exitCode = 0 ∧ r.stderr = []) ∨
  (r.exitCode = 1 ∧ r.stderr.length = 1 ∧ r.stdout = [])

/-- Two values that differ only in the order of the fields of a record
with distinct keys (key order in a JSON object is irrelevant to a dict). -/
def entryKeyPerm : JVal → JVal → Prop
  | .obj fields, .obj fields2 => fields.Perm fields2 ∧ (fields.map Prod.fst).Nodup
  | a, b => a = b

/-- Elementwise `entryKeyPerm` on the entries of the dataset: array order
is kept, only record key order may change. -/
def EntriesKeyPerm : List JVal → List JVal → Prop
  | [], [] => True
  | e :: rest, e2 :: rest2 => entryKeyPerm e e2 ∧ EntriesKeyPerm rest rest2
  | _, _ => False

/-! ### Concrete inputs used by witnesses and counterexamples -/

/-- The opening record `{"eco": "A00", "name": "Polish", "moves": "1.b4"}`. -/
def polish : JVal :=
  .obj [("eco", .str "A00"), ("name", .str "Polish"), ("moves", .str "1.b4")]

/-- The same record with its keys in a different order. -/
def polishReordered : JVal :=
  .obj [("moves", .str "1.b4"), ("eco", .str "A00"), ("name", .str "Polish")]

/-- `{"eco": "A01", "name": "Bird", "moves": "1.b4"}` — same `moves` value
as `polish`. -/
def bird : JVal :=
  .obj [("eco", .str "A01"), ("name", .str "Bird"), ("moves", .str "1.b4")]

/-- `{"eco": "A02", "name": "From", "moves": "1.f4"}` — a distinct move
string. -/
def from2 : JVal :=
  .obj [("eco", .str "A02"), ("name", .str "From"), ("moves", .str "1.f4")]

/-- An entry missing the `moves` key. -/
def noMoves : JVal :=
  .obj [("eco", .str "B20"), ("name", .str "Sicilian")]

/-- An otherwise valid entry whose `moves` value is a JSON array (an
unhashable Python value). -/
def listMoves : JVal :=
  .obj [("eco", .str "Z01"), ("name", .str "ListMoves"), ("moves", .arr [])]

/-- An otherwise valid entry whose `moves` value is a JSON object (an
unhashable Python value). -/
def dictMoves : JVal :=
  .obj [("eco", .str "Z02"), ("name", .str "DictMoves"), ("moves", .obj [])]

/-- The literal file text `[{"eco":"A00","name":"Polish","moves":"1.b4"}]`
from the spec's concrete scenario. -/
def sampleText : String :=
  "[\x7b\"eco\":\"A00\",\"name\":\"Polish\",\"moves\":\"1.b4\"\x7d]"

/-! ### Lemmas about the field check -/

theorem missingFrom_eq_nil_iff (l : List JVal) (k : Nat) :
    missingFrom k l = [] ↔ ∀ e ∈ l, entryMissing e = false := by
  induction l generalizing k with
  | nil => simp [missingFrom]
  | cons e rest ih =>
    cases he : entryMissing e <;> simp [missingFrom, he, ih]

theorem mem_missingFrom (l : List JVal) (k i : Nat) :
    i ∈ missingFrom k l ↔
      ∃ j, j < l.length ∧ i = k + j ∧ entryMissing (l.getD j .null) = true := by
  induction l generalizing k with
  | nil => simp [missingFrom]
  | cons e rest ih =>
    by_cases he : entryMissing e = true
    · rw [show missingFrom k (e :: rest) = k :: missingFrom (k + 1) rest from by
        simp [missingFrom, he]]
      simp only [List.mem_cons, ih]
      constructor
      · rintro (rfl | ⟨j, hj, rfl, hm⟩)
        · exact ⟨0, by simp, by simp, by simpa using he⟩
        · exact ⟨j + 1, by simpa using hj, by omega, by simpa using hm⟩
      · rintro ⟨j, hj, rfl, hm⟩
        cases j with
        | zero => exact Or.inl (by simp)
        | succ j =>
          exact Or.inr ⟨j, by simpa using hj, by omega, by simpa using hm⟩
    · rw [show missingFrom k (e :: rest) = missingFrom (k + 1) rest from by
        simp [missingFrom, he]]
      rw [ih]
      constructor
      · rintro ⟨j, hj, rfl, hm⟩
        exact ⟨j + 1, by simpa using hj, by omega, by simpa using hm⟩
      · rintro ⟨j, hj, rfl, hm⟩
        cases j with
        | zero => exact absurd (by simpa using hm) he
        | succ j =>
          exact ⟨j, by simpa using hj, by omega, by simpa using hm⟩

theorem missingFrom_ge (l : List JVal) (k : Nat) : ∀ i ∈ missingFrom k l, k ≤ i := by
  intro i hi
  rcases (mem_missingFrom l k i).mp hi with ⟨j, _, rfl, _⟩
  omega

theorem missingFrom_sorted (l : List JVal) (k : Nat) :
    (missingFrom k l).Sorted (· < ·) := by
  induction l generalizing k with
  | nil => simp [missingFrom]
  | cons e rest ih =>
    cases he : entryMissing e
    · simpa [missingFrom, he] using ih (k + 1)
    · simp only [missingFrom, he, if_true, List.sorted_cons]
      exact ⟨fun b hb => Nat.lt_of_lt_of_le (Nat.lt_succ_self k)
              (missingFrom_ge rest (k + 1) b hb), ih (k + 1)⟩

/-! ### Lemmas about Python equality and `Counter` -/

theorem boolToInt_inj (b c : Bool) :
    ((if b then 1 else 0 : Int) = if c then 1 else 0) ↔ b = c := by
  cases b <;> cases c <;> decide

/-- Proof-support classifier: the equivalence class of a hashable value
under Python `==` (booleans collapse to the integers `1` and `0`); `none`
for unhashable values, which `pyEq` never relates to anything. -/
def pyKey : JVal → Option (Int ⊕ String ⊕ Unit)
  | .null => some (.inr (.inr ()))
  | .bool b => some (.inl (if b then 1 else 0))
  | .num n => some (.inl n)
  | .str s => some (.inr (.inl s))
  | .arr _ => none
  | .obj _ => none

theorem pyEq_iff_key (a b : JVal) :
    pyEq a b = true ↔ (pyKey a).isSome ∧ pyKey a = pyKey b := by
  cases a <;> cases b <;> simp [pyEq, pyKey, boolToInt_inj]

theorem pyEq_symm (a b : JVal) : pyEq a b = pyEq b a := by
  cases hab : pyEq a b <;> cases hba : pyEq b a <;> try rfl
  · obtain ⟨hs, hk⟩ := (pyEq_iff_key b a).mp hba
    have h2 : pyEq a b = true := (pyEq_iff_key a b).mpr ⟨hk ▸ hs, hk.symm⟩
    rw [hab] at h2
    exact h2
  · obtain ⟨hs, hk⟩ := (pyEq_iff_key a b).mp hab
    have h2 : pyEq b a = true := (pyEq_iff_key b a).mpr ⟨hk ▸ hs, hk.symm⟩
    rw [hba] at h2
    exact h2.symm

theorem pyEq_trans {a b c : JVal} (h1 : pyEq a b = true) (h2 : pyEq b c = true) :
    pyEq a c = true := by
  obtain ⟨hs1, hk1⟩ := (pyEq_iff_key a b).mp h1
  obtain ⟨_, hk2⟩ := (pyEq_iff_key b c).mp h2
  exact (pyEq_iff_key a c).mpr ⟨hs1, hk1.trans hk2⟩

theorem pyEq_refl_of {a b : JVal} (h : pyEq a b = true) : pyEq a a = true := by
  have hba : pyEq b a = true := by rw [← pyEq_symm]; exact h
  exact pyEq_trans h hba

theorem pyEq_arg_congr {v w : JVal} (h : pyEq v w = true) (x : JVal) :
    pyEq x v = pyEq x w := by
  have hwv : pyEq w v = true := by rw [← pyEq_symm]; exact h
  cases hxv : pyEq x v <;> cases hxw : pyEq x w <;> try rfl
  · have h2 : pyEq x v = true := pyEq_trans hxw hwv
    rw [hxv] at h2
    exact h2
  · have h2 : pyEq x w = true := pyEq_trans hxv h
    rw [hxw] at h2
    exact h2.symm

theorem pyCount_congr {v w : JVal} (h : pyEq v w = true) (l : List JVal) :
    pyCount v l = pyCount w l := by
  unfold pyCount
  congr 1
  exact List.filter_congr (fun x _ => pyEq_arg_congr h x)

theorem pyCount_pos_iff (v : JVal) (l : List JVal) :
    0 < pyCount v l ↔ ∃ x ∈ l, pyEq x v = true := by
  simp [pyCount, List.length_pos, List.filter_eq_nil_iff]

theorem pyCount_le_one_of_allDistinct {l : List JVal} (h : allDistinct l = true)
    (v : JVal) : pyCount v l ≤ 1 := by
  induction l with
  | nil => simp [pyCount]
  | cons x rest ih =>
    simp only [allDistinct, Bool.and_eq_true, Bool.not_eq_true'] at h
    obtain ⟨hany, hrest⟩ := h
    have hcons : pyCount v (x :: rest) =
        (if pyEq x v then 1 else 0) + pyCount v rest := by
      simp only [pyCount, List.filter_cons]
      split <;> simp [Nat.add_comm]
    rw [hcons]
    cases hxv : pyEq x v with
    | false => simpa using ih hrest
    | true =>
      have hzero : pyCount v rest = 0 := by
        simp only [pyCount, List.length_eq_zero, List.filter_eq_nil_iff]
        intro y hy hyv
        have hvx : pyEq v x = true := by rw [pyEq_symm]; exact hxv
        have hyx : pyEq y x = true := pyEq_trans (by simpa using hyv) hvx
        have hcontra : rest.any (fun z => pyEq z x) = true :=
          List.any_eq_true.mpr ⟨y, hy, by simpa using hyx⟩
        rw [hany] at hcontra
        exact Bool.false_ne_true hcontra
      simp [hzero]



theorem counterKeysFuel_congr : ∀ (n fuel fuel2 : Nat) (l : List JVal),
    l.length ≤ n → l.length ≤ fuel → l.length ≤ fuel2 →
    counterKeysFuel fuel l = counterKeysFuel fuel2 l := by
  intro n
  induction n with
  | zero =>
    intro fuel fuel2 l h _ _
    cases l with
    | nil => cases fuel <;> cases fuel2 <;> rfl
    | cons v rest => simp at h
  | succ n ih =>
    intro fuel fuel2 l h hf hf2
    cases l with
    | nil => cases fuel <;> cases fuel2 <;> rfl
    | cons v rest =>
      cases fuel with
      | zero => simp at hf
      | succ f =>
        cases fuel2 with
        | zero => simp at hf2
        | succ f2 =>
          simp only [counterKeysFuel, List.cons.injEq, true_and]
          have hlen : (rest.filter (fun x => !pyEq x v)).length ≤ rest.length :=
            List.length_filter_le _ _
          simp only [List.length_cons] at h hf hf2
          exact ih f f2 _ (by omega) (by omega) (by omega)

theorem counterKeys_cons (v : JVal) (rest : List JVal) :
    counterKeys (v :: rest) = v :: counterKeys (rest.filter (fun x => !pyEq x v)) := by
  unfold counterKeys
  simp only [List.length_cons, counterKeysFuel, List.cons.injEq, true_and]
  exact counterKeysFuel_congr rest.length rest.length _ _
    (List.length_filter_le _ _) (List.length_filter_le _ _) (le_refl _)

/-- Induction along the recursion structure of `counterKeys`. -/
theorem counterKeys_induction (motive : List JVal → Prop) (nil : motive [])
    (cons : ∀ v rest, motive (rest.filter (fun x => !pyEq x v)) → motive (v :: rest))
    (l : List JVal) : motive l := by
  have H : ∀ n (l : List JVal), l.length ≤ n → motive l := by
    intro n
    induction n with
    | zero =>
      intro l h
      cases l with
      | nil => exact nil
      | cons v rest => simp at h
    | succ n ih =>
      intro l h
      cases l with
      | nil => exact nil
      | cons v rest =>
        refine cons v rest (ih _ ?_)
        have := List.length_filter_le (fun x => !pyEq x v) rest
        simp only [List.length_cons] at h
        omega
  exact H l.length l (le_refl _)

theorem counterKeys_subset (l : List JVal) : ∀ v ∈ counterKeys l, v ∈ l := by
  induction l using counterKeys_induction with
  | nil => simp [counterKeys, counterKeysFuel]
  | cons x rest ih =>
    intro w hw
    rw [counterKeys_cons] at hw
    rcases List.mem_cons.mp hw with rfl | hw
    · exact List.mem_cons_self _ _
    · exact List.mem_cons_of_mem _ (List.mem_of_mem_filter (ih w hw))

theorem counterKeys_complete (l : List JVal) :
    ∀ v ∈ l, pyEq v v = true → ∃ w ∈ counterKeys l, pyEq v w = true := by
  induction l using counterKeys_induction with
  | nil => simp
  | cons x rest ih =>
    intro v hv hvv
    by_cases hvx : pyEq v x = true
    · exact ⟨x, by simp [counterKeys_cons], hvx⟩
    · have hvrest : v ∈ rest := by
        rcases List.mem_cons.mp hv with rfl | h
        · exact absurd hvv hvx
        · exact h
      have hvfilt : v ∈ rest.filter (fun y => !pyEq y x) := by
        refine List.mem_filter.mpr ⟨hvrest, ?_⟩
        simp only [Bool.not_eq_true']
        exact Bool.eq_false_iff.mpr hvx
      obtain ⟨w, hw, hvw⟩ := ih v hvfilt hvv
      exact ⟨w, by simp [counterKeys_cons, hw], hvw⟩

theorem counterKeys_pairwise (l : List JVal) :
    (counterKeys l).Pairwise (fun a b => pyEq a b = false) := by
  induction l using counterKeys_induction with
  | nil => simp [counterKeys, counterKeysFuel]
  | cons x rest ih =>
    rw [counterKeys_cons]
    refine List.pairwise_cons.mpr ⟨?_, ih⟩
    intro b hb
    have hbfilt := counterKeys_subset _ b hb
    have hbx : pyEq b x = false := by
      have h2 := (List.mem_filter.mp hbfilt).2
      simpa using h2
    rw [pyEq_symm]
    exact hbx

theorem mem_pyDuplicates (l : List JVal) (w : JVal) :
    w ∈ pyDuplicates l ↔ w ∈ counterKeys l ∧ 1 < pyCount w l := by
  simp [pyDuplicates, List.mem_filter]

theorem pyDuplicates_pairwise (l : List JVal) :
    (pyDuplicates l).Pairwise (fun a b => pyEq a b = false) :=
  (counterKeys_pairwise l).sublist (List.filter_sublist _)

theorem pyDuplicates_eq_nil_of_allDistinct {l : List JVal} (h : allDistinct l = true) :
    pyDuplicates l = [] := by
  rw [pyDuplicates, List.filter_eq_nil_iff]
  intro w _
  simp only [decide_eq_true_eq, Nat.not_lt]
  exact pyCount_le_one_of_allDistinct h w

theorem pyDuplicates_ne_nil {l : List JVal} {v : JVal} (hvl : v ∈ l)
    (hv : 1 < pyCount v l) : pyDuplicates l ≠ [] := by
  have hpos : 0 < pyCount v l := by omega
  obtain ⟨x, _, hxv⟩ := (pyCount_pos_iff v l).mp hpos
  have hvx : pyEq v x = true := by rw [pyEq_symm]; exact hxv
  have hvv : pyEq v v = true := pyEq_refl_of hvx
  obtain ⟨w, hw, hvw⟩ := counterKeys_complete l v hvl hvv
  have hcnt : pyCount w l = pyCount v l := (pyCount_congr hvw l).symm
  have hwdup : w ∈ pyDuplicates l := (mem_pyDuplicates l w).mpr ⟨hw, by omega⟩
  intro hnil
  rw [hnil] at hwdup
  exact absurd hwdup (List.not_mem_nil w)

/-! ### Branch lemmas for the pipeline -/

theorem runChecks_not_arr {d : JVal} (h : isArr d = false) (content : String) :
    runChecks content d = .shapeFail := by
  cases d <;> first | rfl | simp [isArr] at h

theorem runChecks_fieldFail {entries : List JVal} (h : missingIndices entries ≠ [])
    (content : String) :
    runChecks content (.arr entries) = .fieldFail (missingIndices entries) := by
  rw [runChecks]
  rw [if_neg (by simpa [List.isEmpty_iff] using h)]

theorem runChecks_uncaught {entries : List JVal} {v : JVal}
    (h1 : missingIndices entries = [])
    (h2 : (movesValues entries).find? (fun v => !jhashable v) = some v)
    (content : String) :
    runChecks content (.arr entries) =
      .uncaught ("unhashable type: " ++ sq.toString ++ pyTypeName v ++ sq.toString) := by
  have hm : (missingIndices entries).isEmpty = true := by simp [h1]
  simp [runChecks, hm, h2]

theorem runChecks_dupFail {entries : List JVal}
    (h1 : missingIndices entries = [])
    (h2 : ∀ v ∈ movesValues entries, jhashable v = true)
    (h3 : pyDuplicates (movesValues entries) ≠ [])
    (content : String) :
    runChecks content (.arr entries) = .dupFail (pyDuplicates (movesValues entries)) := by
  have hfind : (movesValues entries).find? (fun v => !jhashable v) = none :=
    List.find?_eq_none.mpr (fun x hx => by simp [h2 x hx])
  have hm : (missingIndices entries).isEmpty = true := by simp [h1]
  have hd : (pyDuplicates (movesValues entries)).isEmpty = false := by
    simpa [List.isEmpty_iff] using h3
  simp [runChecks, hm, hfind, hd]

theorem runChecks_success {entries : List JVal}
    (h1 : missingIndices entries = [])
    (h2 : ∀ v ∈ movesValues entries, jhashable v = true)
    (h3 : pyDuplicates (movesValues entries) = [])
    (content : String) :
    runChecks content (.arr entries) = .success entries.length content.utf8ByteSize := by
  have hfind : (movesValues entries).find? (fun v => !jhashable v) = none :=
    List.find?_eq_none.mpr (fun x hx => by simp [h2 x hx])
  have hm : (missingIndices entries).isEmpty = true := by simp [h1]
  have hd : (pyDuplicates (movesValues entries)).isEmpty = true := by simp [h3]
  simp [runChecks, hm, hfind, hd]

theorem pyCount_cons (v x : JVal) (l : List JVal) :
    pyCount v (x :: l) = (if pyEq x v then 1 else 0) + pyCount v l := by
  simp only [pyCount, List.filter_cons]
  split <;> simp [Nat.add_comm]

theorem exists_dup_of_not_allDistinct {l : List JVal} (h : allDistinct l = false) :
    ∃ v ∈ l, 1 < pyCount v l := by
  induction l with
  | nil => simp [allDistinct] at h
  | cons x rest ih =>
    by_cases hany : rest.any (fun z => pyEq z x) = true
    · obtain ⟨y, hy, hyx⟩ := List.any_eq_true.mp hany
      have hyx2 : pyEq y x = true := by simpa using hyx
      have hxx : pyEq x x = true := pyEq_refl_of (by rw [pyEq_symm]; exact hyx2)
      refine ⟨x, List.mem_cons_self _ _, ?_⟩
      have hmem : y ∈ rest.filter (fun z => pyEq z x) :=
        List.mem_filter.mpr ⟨hy, by simpa using hyx2⟩
      have hne : rest.filter (fun z => pyEq z x) ≠ [] := by
        intro hnil
        rw [hnil] at hmem
        exact absurd hmem (List.not_mem_nil y)
      have hpos : 0 < (rest.filter (fun z => pyEq z x)).length := List.length_pos.mpr hne
      rw [pyCount_cons, if_pos hxx]
      have hrest : pyCount x rest = (rest.filter (fun z => pyEq z x)).length := rfl
      omega
    · have hany2 : rest.any (fun z => pyEq z x) = false := by
        cases h2 : rest.any (fun z => pyEq z x)
        · rfl
        · exact absurd h2 hany
      have hrest : allDistinct rest = false := by
        simpa [allDistinct, hany2] using h
      obtain ⟨v, hv, hc⟩ := ih hrest
      refine ⟨v, List.mem_cons_of_mem _ hv, ?_⟩
      rw [pyCount_cons]
      split <;> omega

/-! ### Key-order irrelevance -/

theorem bool_eq_of_iff {a b : Bool} (h : a = true ↔ b = true) : a = b := by
  cases a <;> cases b <;> simp_all

theorem hasKey_perm {fs fs2 : List (String × JVal)} (h : fs.Perm fs2) (k : String) :
    hasKey fs k = hasKey fs2 k := by
  apply bool_eq_of_iff
  simp only [hasKey, List.any_eq_true]
  constructor
  · rintro ⟨kv, hkv, hk⟩
    exact ⟨kv, h.mem_iff.mp hkv, hk⟩
  · rintro ⟨kv, hkv, hk⟩
    exact ⟨kv, h.mem_iff.mpr hkv, hk⟩

theorem entryMissing_keyPerm {e e2 : JVal} (h : entryKeyPerm e e2) :
    entryMissing e = entryMissing e2 := by
  cases e <;> cases e2 <;> try exact h ▸ rfl
  obtain ⟨hp, -⟩ := h
  simp only [entryMissing]
  exact congrArg requiredKeys.any (funext fun k => by rw [hasKey_perm hp k])

theorem filter_key_length_le_one {fs : List (String × JVal)}
    (hn : (fs.map Prod.fst).Nodup) (k : String) :
    (fs.filter (fun kv => kv.1 = k)).length ≤ 1 := by
  induction fs with
  | nil => simp
  | cons kv rest ih =>
    simp only [List.map_cons, List.nodup_cons] at hn
    obtain ⟨hnot, hrest⟩ := hn
    by_cases hk : kv.1 = k
    · have hnil : rest.filter (fun kv2 => kv2.1 = k) = [] := by
        rw [List.filter_eq_nil_iff]
        intro kv2 h2 hk2
        refine hnot (List.mem_map.mpr ⟨kv2, h2, ?_⟩)
        have : kv2.1 = k := by simpa using hk2
        rw [this, hk]
      simp [List.filter_cons, hk, hnil]
    · simp only [List.filter_cons, hk, decide_False, Bool.false_eq_true, if_false]
      exact ih hrest

theorem perm_eq_of_length_le_one {α : Type} {l1 l2 : List α} (h : l1.Perm l2)
    (hl : l1.length ≤ 1) : l1 = l2 := by
  cases l1 with
  | nil => exact (h.symm.eq_nil).symm
  | cons a rest =>
    cases rest with
    | nil => exact (List.perm_singleton.mp h.symm).symm
    | cons b r2 => simp at hl

theorem jLookup_perm {fs fs2 : List (String × JVal)} (h : fs.Perm fs2)
    (hn : (fs.map Prod.fst).Nodup) (k : String) : jLookup fs k = jLookup fs2 k := by
  unfold jLookup
  have hperm := h.filter (fun kv => kv.1 = k)
  rw [perm_eq_of_length_le_one hperm (filter_key_length_le_one hn k)]

theorem getMoves_keyPerm {e e2 : JVal} (h : entryKeyPerm e e2) :
    getMoves e = getMoves e2 := by
  cases e <;> cases e2 <;> try exact h ▸ rfl
  obtain ⟨hp, hn⟩ := h
  simp only [getMoves]
  exact jLookup_perm hp hn "moves"

theorem entriesKeyPerm_missingFrom {l l2 : List JVal} (h : EntriesKeyPerm l l2) :
    ∀ k, missingFrom k l = missingFrom k l2 := by
  induction l generalizing l2 with
  | nil =>
    cases l2 with
    | nil => intro k; rfl
    | cons e r => exact h.elim
  | cons e rest ih =>
    cases l2 with
    | nil => exact h.elim
    | cons e2 rest2 =>
      obtain ⟨he, hrest⟩ := h
      intro k
      simp only [missingFrom, entryMissing_keyPerm he]
      rw [ih hrest (k + 1)]

theorem entriesKeyPerm_moves {l l2 : List JVal} (h : EntriesKeyPerm l l2) :
    movesValues l = movesValues l2 := by
  induction l generalizing l2 with
  | nil =>
    cases l2 with
    | nil => rfl
    | cons e r => exact h.elim
  | cons e rest ih =>
    cases l2 with
    | nil => exact h.elim
    | cons e2 rest2 =>
      obtain ⟨he, hrest⟩ := h
      simp only [movesValues, List.filterMap_cons, getMoves_keyPerm he]
      rw [show rest.filterMap getMoves = rest2.filterMap getMoves from ih hrest]

theorem entriesKeyPerm_length {l l2 : List JVal} (h : EntriesKeyPerm l l2) :
    l.length = l2.length := by
  induction l generalizing l2 with
  | nil =>
    cases l2 with
    | nil => rfl
    | cons e r => exact h.elim
  | cons e rest ih =>
    cases l2 with
    | nil => exact h.elim
    | cons e2 rest2 =>
      obtain ⟨-, hrest⟩ := h
      simp [ih hrest]

theorem runChecks_keyPerm {l l2 : List JVal} (h : EntriesKeyPerm l l2)
    (content : String) :
    runChecks content (.arr l) = runChecks content (.arr l2) := by
  have h1 : missingIndices l = missingIndices l2 := entriesKeyPerm_missingFrom h 0
  have h2 : movesValues l = movesValues l2 := entriesKeyPerm_moves h
  have h3 : l.length = l2.length := entriesKeyPerm_length h
  simp only [runChecks, h1, h2, h3]

/-! ### Additional concrete inputs for counterexamples -/

/-- The file text `[{"eco":"Z01","name":"ListMoves","moves":[]}]`, whose
single entry has an array as its `moves` value. -/
def listMovesText : String :=
  "[\x7b\"eco\":\"Z01\",\"name\":\"ListMoves\",\"moves\":[]\x7d]"

/-- The file text `[{"eco":"Z02","name":"DictMoves","moves":{}}]`, whose
single entry has an object as its `moves` value. -/
def dictMovesText : String :=
  "[\x7b\"eco\":\"Z02\",\"name\":\"DictMoves\",\"moves\":\x7b\x7d\x7d]"

/-! ### Claims -/

/-- C10: for the empty-array input `[]`, validate succeeds: exit code 0,
entry count 0, and the byte size of the input text (2 bytes); no stage
treats an empty dataset as an error. -/
theorem c10_empty_array_succeeds :
    mainRun (.ok "[]" (.arr [])) =
      ⟨0, ["ECO-lite entries: 0", "Approximate file size: 2 bytes"], []⟩ := rfl

/-- C8 (amended): for the single-record input text
`[{"eco":"A00","name":"Polish","moves":"1.b4"}]`, validate exits with
code 0 and prints exactly `ECO-lite entries: 1` and
`Approximate file size: 46 bytes`, where 46 is the UTF-8 length of that
literal input text. -/
theorem c8_sample_scenario_prints_46_bytes :
    mainRun (.ok sampleText (.arr [polish])) =
      ⟨0, ["ECO-lite entries: 1", "Approximate file size: 46 bytes"], []⟩ ∧
    sampleText.utf8ByteSize = 46 :=
  ⟨rfl, rfl⟩

/-- C8 counterexample: the claimed output line `Approximate file size: 45
bytes` is not what the program prints for that input — the literal text is
46 bytes long, so the stdout of the run differs from the claimed pair of
lines. -/
theorem c8_claimed_45_bytes_is_wrong :
    (mainRun (.ok sampleText (.arr [polish]))).stdout ≠
      ["ECO-lite entries: 1", "Approximate file size: 45 bytes"] := by
  decide

/-- C5 (amended): for every successfully parsed document whose root is not
an array, validate stops at the shape check (the outcome is `shapeFail`,
so no field, duplicate, or success stage is reached), exits with code 1,
and prints the message `Dataset root must be a JSON array.` to stderr,
regardless of the root value's content. -/
theorem c5_non_array_root_shape_error (content : String) (d : JVal)
    (h : isArr d = false) :
    mainOutcome (.ok content d) = .shapeFail ∧
    mainRun (.ok content d) = ⟨1, [], ["Dataset root must be a JSON array."]⟩ := by
  have h1 : runChecks content d = .shapeFail := runChecks_not_arr h content
  refine ⟨h1, ?_⟩
  show render (runChecks content d) = _
  rw [h1]
  rfl

theorem c5_non_array_root_shape_error_witness :
    mainRun (.ok "\x7b\x7d" (.obj [])) =
      ⟨1, [], ["Dataset root must be a JSON array."]⟩ :=
  (c5_non_array_root_shape_error "\x7b\x7d" (.obj []) rfl).2

/-- C5 counterexample: the shape-failure message is `Dataset root must be
a JSON array.`, not the claimed `dataset root must be an array`. -/
theorem c5_claimed_message_is_wrong :
    (mainRun (.ok "\x7b\x7d" (.obj []))).stderr ≠ ["dataset root must be an array"] ∧
    (mainRun (.ok "\x7b\x7d" (.obj []))).stderr = ["Dataset root must be a JSON array."] := by
  constructor
  · decide
  · rfl

/-- C6: an input text that is not valid JSON makes `json.loads` raise; the
run exits with code 1 and a single stderr line that contains the parser's
own diagnostic message verbatim; a parse failure and an I/O failure are
reported through the same channel with the same formatting, yet are
distinct failure kinds. -/
theorem c6_parse_error_reported (msg : String) :
    mainRun (.parseError msg) =
      ⟨1, [], ["Failed to load " ++ dataPath ++ ": " ++ msg]⟩ ∧
    (∃ pre post, "Failed to load " ++ dataPath ++ ": " ++ msg = pre ++ msg ++ post) ∧
    mainRun (.parseError msg) = mainRun (.ioError msg) ∧
    ∀ m2, (LoadOutcome.parseError msg) ≠ .ioError m2 := by
  refine ⟨rfl, ⟨"Failed to load " ++ dataPath ++ ": ", "", ?_⟩, rfl, ?_⟩
  · simp [String.append_assoc]
  · intro m2 hcon
    exact LoadOutcome.noConfusion hcon

theorem c6_parse_error_reported_witness :
    mainRun (.parseError "Expecting value: line 1 column 1 (char 0)") =
      ⟨1, [],
       ["Failed to load assets/data/eco_lite.json: Expecting value: line 1 column 1 (char 0)"]⟩ :=
  (c6_parse_error_reported "Expecting value: line 1 column 1 (char 0)").1

/-- C4: the field check strictly precedes the duplicate check — whenever
any entry fails the field check, the run reports exactly the field error
and never a duplicate error, even when duplicate `moves` values are also
present. -/
theorem c4_field_check_precedes_duplicate_check (content : String)
    (entries : List JVal)
    (hmiss : missingIndices entries ≠ [])
    (_hdup : allDistinct (movesValues entries) = false) :
    mainOutcome (.ok content (.arr entries)) = .fieldFail (missingIndices entries) ∧
    ∀ dups, mainOutcome (.ok content (.arr entries)) ≠ .dupFail dups := by
  have h : runChecks content (.arr entries) = .fieldFail (missingIndices entries) :=
    runChecks_fieldFail hmiss content
  refine ⟨h, ?_⟩
  intro dups hcon
  exact Outcome.noConfusion (h.symm.trans hcon)

theorem c4_field_check_precedes_duplicate_check_witness :
    mainOutcome (.ok "x" (.arr [polish, bird, noMoves])) = .fieldFail [2] ∧
    ∀ dups, mainOutcome (.ok "x" (.arr [polish, bird, noMoves])) ≠ .dupFail dups := by
  have h := c4_field_check_precedes_duplicate_check "x" [polish, bird, noMoves]
    (by decide) (by rfl)
  exact ⟨h.1, h.2⟩

/-- C1 (amended): for every parsed array whose elements are all objects
containing `eco`, `name`, and `moves`, with all `moves` values strings and
pairwise distinct, validate succeeds with exit code 0, reports an entry
count equal to the array's length, and reports a byte size equal to the
UTF-8 encoding length of the original file text. -/
theorem c1_valid_dataset_reports_count_and_bytes (content : String)
    (entries : List JVal)
    (hfields : entries.all (fun e => !entryMissing e) = true)
    (hstr : (movesValues entries).all isStr = true)
    (hdistinct : allDistinct (movesValues entries) = true) :
    mainRun (.ok content (.arr entries)) =
      ⟨0, ["ECO-lite entries: " ++ toString entries.length,
           "Approximate file size: " ++ toString content.utf8ByteSize ++ " bytes"],
       []⟩ := by
  have h1 : missingIndices entries = [] := by
    rw [missingIndices, missingFrom_eq_nil_iff]
    intro e he
    have h2 := List.all_eq_true.mp hfields e he
    simpa using h2
  have h2 : ∀ v ∈ movesValues entries, jhashable v = true := by
    intro v hv
    have h3 := List.all_eq_true.mp hstr v hv
    cases v <;> simp_all [isStr, jhashable]
  have h3 : pyDuplicates (movesValues entries) = [] :=
    pyDuplicates_eq_nil_of_allDistinct hdistinct
  show render (runChecks content (.arr entries)) = _
  rw [runChecks_success h1 h2 h3]
  rfl

theorem c1_valid_dataset_reports_count_and_bytes_witness :
    mainRun (.ok sampleText (.arr [polish, from2])) =
      ⟨0, ["ECO-lite entries: 2", "Approximate file size: 46 bytes"], []⟩ := by
  have h := c1_valid_dataset_reports_count_and_bytes sampleText [polish, from2]
    rfl rfl rfl
  exact h.trans (by decide)

/-- C1 counterexample: an array whose single element is an object with all
three keys and (vacuously) pairwise-distinct `moves` values, but whose
`moves` value is a JSON object: `Counter` cannot hash it, the run raises
an uncaught `TypeError` instead of succeeding. -/
theorem c1_unhashable_moves_crashes_instead_of_success :
    mainOutcome (.ok dictMovesText (.arr [dictMoves])) =
      .uncaught ("unhashable type: " ++ sq.toString ++ "dict" ++ sq.toString) ∧
    ∀ c b, mainOutcome (.ok dictMovesText (.arr [dictMoves])) ≠ .success c b := by
  refine ⟨rfl, ?_⟩
  intro c b hcon
  exact Outcome.noConfusion hcon

/-- C2: the field check visits every element in one pass and collects the
full list of failing indices; a non-mapping element fails, as does a
mapping missing any of `eco`/`name`/`moves`; the run reports `FieldError`
with exactly this list iff the list is non-empty, and the list holds the
failing indices in strictly increasing array order (each exactly once). -/
theorem c2_field_check_collects_all_indices (content : String)
    (entries : List JVal) :
    (mainOutcome (.ok content (.arr entries)) = .fieldFail (missingIndices entries)
        ↔ missingIndices entries ≠ []) ∧
    (∀ i, i ∈ missingIndices entries ↔
        i < entries.length ∧ entryMissing (entries.getD i .null) = true) ∧
    (missingIndices entries).Sorted (· < ·) := by
  refine ⟨⟨?_, ?_⟩, ?_, missingFrom_sorted entries 0⟩
  · intro h hnil
    have h2 : runChecks content (.arr entries) = .fieldFail (missingIndices entries) := h
    cases hfind : (movesValues entries).find? (fun v => !jhashable v) with
    | some v =>
      rw [runChecks_uncaught hnil hfind content] at h2
      exact Outcome.noConfusion h2
    | none =>
      have hhash : ∀ v ∈ movesValues entries, jhashable v = true := by
        intro v hv
        have h3 := List.find?_eq_none.mp hfind v hv
        simpa using h3
      by_cases hd : pyDuplicates (movesValues entries) = []
      · rw [runChecks_success hnil hhash hd] at h2
        exact Outcome.noConfusion h2
      · rw [runChecks_dupFail hnil hhash hd content] at h2
        exact Outcome.noConfusion h2
  · intro hne
    exact runChecks_fieldFail hne content
  · intro i
    rw [missingIndices, mem_missingFrom]
    constructor
    · rintro ⟨j, hj, rfl, hm⟩
      exact ⟨by omega, by simpa using hm⟩
    · rintro ⟨hi, hm⟩
      exact ⟨i, hi, by omega, hm⟩

theorem c2_field_check_collects_all_indices_witness :
    mainOutcome (.ok "t" (.arr [polish, .str "oops", from2])) = .fieldFail [1] := by
  have h := (c2_field_check_collects_all_indices "t" [polish, .str "oops", from2]).1
  have hm : missingIndices [polish, .str "oops", from2] = [1] := by decide
  rw [← hm]
  exact h.mpr (by rw [hm]; exact List.cons_ne_nil 1 [])

/-- C3 (amended): for every array of objects each containing `eco`, `name`,
and `moves` with all `moves` values strings, if two elements have identical
`moves` strings the run fails with `DuplicateError`: the reported list
holds exactly the duplicated values, each exactly once (pairwise not
Python-equal), no field error fires, and the stderr line carries the count
of distinct duplicated values together with the list. -/
theorem c3_duplicate_error_lists_each_once (content : String)
    (entries : List JVal)
    (hfields : entries.all (fun e => !entryMissing e) = true)
    (hstr : (movesValues entries).all isStr = true)
    (hdup : allDistinct (movesValues entries) = false) :
    mainOutcome (.ok content (.arr entries)) =
        .dupFail (pyDuplicates (movesValues entries)) ∧
    pyDuplicates (movesValues entries) ≠ [] ∧
    (pyDuplicates (movesValues entries)).Pairwise (fun a b => pyEq a b = false) ∧
    (∀ w ∈ pyDuplicates (movesValues entries),
        w ∈ movesValues entries ∧ 1 < pyCount w (movesValues entries)) ∧
    (∀ idxs, mainOutcome (.ok content (.arr entries)) ≠ .fieldFail idxs) ∧
    (mainRun (.ok content (.arr entries))).stderr =
      ["Duplicate move strings found ("
        ++ toString (pyDuplicates (movesValues entries)).length ++ "): "
        ++ pyListStr ((pyDuplicates (movesValues entries)).map pyReprJVal)] := by
  have h1 : missingIndices entries = [] := by
    rw [missingIndices, missingFrom_eq_nil_iff]
    intro e he
    have h2 := List.all_eq_true.mp hfields e he
    simpa using h2
  have h2 : ∀ v ∈ movesValues entries, jhashable v = true := by
    intro v hv
    have h3 := List.all_eq_true.mp hstr v hv
    cases v <;> simp_all [isStr, jhashable]
  obtain ⟨v, hv, hcv⟩ := exists_dup_of_not_allDistinct hdup
  have hne : pyDuplicates (movesValues entries) ≠ [] := pyDuplicates_ne_nil hv hcv
  have hmain : runChecks content (.arr entries) =
      .dupFail (pyDuplicates (movesValues entries)) :=
    runChecks_dupFail h1 h2 hne content
  refine ⟨hmain, hne, pyDuplicates_pairwise _, ?_, ?_, ?_⟩
  · intro w hw
    have h3 := (mem_pyDuplicates _ w).mp hw
    exact ⟨counterKeys_subset _ w h3.1, h3.2⟩
  · intro idxs hcon
    exact Outcome.noConfusion (hmain.symm.trans hcon)
  · show (render (runChecks content (.arr entries))).stderr = _
    rw [hmain]
    rfl

theorem c3_duplicate_error_lists_each_once_witness :
    mainOutcome (.ok "x" (.arr [polish, bird, from2])) = .dupFail [.str "1.b4"] ∧
    (pyDuplicates (movesValues [polish, bird, from2])).length = 1 ∧
    (mainRun (.ok "x" (.arr [polish, bird, from2]))).stderr =
      ["Duplicate move strings found (1): ["
        ++ sq.toString ++ "1.b4" ++ sq.toString ++ "]"] := by
  have h := c3_duplicate_error_lists_each_once "x" [polish, bird, from2] rfl rfl rfl
  exact ⟨h.1, rfl, h.2.2.2.2.2.trans (by decide)⟩

/-- C3 counterexample: two otherwise-valid entries share the `moves` string
`1.b4`, but a third entry (an object with all three keys) has an array as
its `moves` value; instead of a duplicate error, the run raises an
uncaught `TypeError` while building the `Counter`. -/
theorem c3_unhashable_entry_crashes_instead_of_dup :
    mainOutcome (.ok "x" (.arr [polish, bird, listMoves])) =
      .uncaught ("unhashable type: " ++ sq.toString ++ "list" ++ sq.toString) ∧
    ∀ d, mainOutcome (.ok "x" (.arr [polish, bird, listMoves])) ≠ .dupFail d := by
  refine ⟨rfl, ?_⟩
  intro d hcon
  exact Outcome.noConfusion hcon

/-- C7 (amended): for every load whose `moves` values (of an array root)
are all hashable scalars, the run terminates with exit code 0 or 1 and
follows the propagation policy: either success with an empty error
channel, or exit code 1 with exactly one diagnostic line on the error
channel and nothing on stdout.  When a `moves` value is an array or
object, a `TypeError` escapes `main` uncaught instead. -/
theorem c7_hashable_moves_follow_policy (ld : LoadOutcome)
    (h : movesHashable ld = true) : wellRendered (mainRun ld) := by
  cases ld with
  | ioError msg => exact Or.inr ⟨rfl, rfl, rfl⟩
  | parseError msg => exact Or.inr ⟨rfl, rfl, rfl⟩
  | ok content data =>
    cases data with
    | arr entries =>
      by_cases hmiss : missingIndices entries = []
      · have hhash : ∀ v ∈ movesValues entries, jhashable v = true := by
          have h2 : (movesValues entries).all jhashable = true := by
            simpa [movesHashable] using h
          intro v hv
          have h3 := List.all_eq_true.mp h2 v hv
          simpa using h3
        by_cases hd : pyDuplicates (movesValues entries) = []
        · have hr : mainRun (.ok content (.arr entries)) =
              render (.success entries.length content.utf8ByteSize) := by
            show render (runChecks content (.arr entries)) = _
            rw [runChecks_success hmiss hhash hd]
          rw [hr]
          exact Or.inl ⟨rfl, rfl⟩
        · have hr : mainRun (.ok content (.arr entries)) =
              render (.dupFail (pyDuplicates (movesValues entries))) := by
            show render (runChecks content (.arr entries)) = _
            rw [runChecks_dupFail hmiss hhash hd content]
          rw [hr]
          exact Or.inr ⟨rfl, rfl, rfl⟩
      · have hr : mainRun (.ok content (.arr entries)) =
            render (.fieldFail (missingIndices entries)) := by
          show render (runChecks content (.arr entries)) = _
          rw [runChecks_fieldFail hmiss content]
        rw [hr]
        exact Or.inr ⟨rfl, rfl, rfl⟩
    | null => exact Or.inr ⟨rfl, rfl, rfl⟩
    | bool b => exact Or.inr ⟨rfl, rfl, rfl⟩
    | num n => exact Or.inr ⟨rfl, rfl, rfl⟩
    | str s => exact Or.inr ⟨rfl, rfl, rfl⟩
    | obj fields => exact Or.inr ⟨rfl, rfl, rfl⟩

theorem c7_hashable_moves_follow_policy_witness :
    wellRendered (mainRun (.ok "x" (.arr [polish, bird]))) :=
  c7_hashable_moves_follow_policy (.ok "x" (.arr [polish, bird])) rfl

/-- C7 counterexample: an otherwise valid dataset whose single `moves`
value is a JSON array makes the `Counter` construction raise an uncaught
`TypeError`: the error is not converted to a single diagnostic line, so
the top-level catch-all policy claimed for every input does not hold. -/
theorem c7_unhashable_moves_escape_uncaught :
    mainOutcome (.ok listMovesText (.arr [listMoves])) =
      .uncaught ("unhashable type: " ++ sq.toString ++ "list" ++ sq.toString) ∧
    ¬ wellRendered (mainRun (.ok listMovesText (.arr [listMoves]))) := by
  refine ⟨rfl, ?_⟩
  intro hw
  rcases hw with ⟨h0, -⟩ | ⟨-, h1, -⟩
  · exact absurd h0 (by decide)
  · exact absurd h1 (by decide)

/-- C9: validation is deterministic — the same load outcome always renders
the same run result; record key order is irrelevant (permuting the fields
of entries with distinct keys changes nothing), while array order is what
the field check's index list reports, in increasing order. -/
theorem c9_deterministic_and_key_order_irrelevant :
    (∀ ld : LoadOutcome, mainRun ld = mainRun ld) ∧
    (∀ (content : String) (l l2 : List JVal), EntriesKeyPerm l l2 →
        mainRun (.ok content (.arr l)) = mainRun (.ok content (.arr l2))) ∧
    (∀ entries : List JVal, (missingIndices entries).Sorted (· < ·)) := by
  refine ⟨fun _ => rfl, ?_, fun entries => missingFrom_sorted entries 0⟩
  intro content l l2 h
  show render (runChecks content (.arr l)) = render (runChecks content (.arr l2))
  rw [runChecks_keyPerm h content]

theorem c9_deterministic_and_key_order_irrelevant_witness :
    mainRun (.ok "t" (.arr [polish])) = mainRun (.ok "t" (.arr [polishReordered])) := by
  have hswap1 : [("name", JVal.str "Polish"), ("moves", JVal.str "1.b4")].Perm
      [("moves", JVal.str "1.b4"), ("name", JVal.str "Polish")] :=
    List.Perm.swap _ _ _
  have hperm : [("eco", JVal.str "A00"), ("name", JVal.str "Polish"),
      ("moves", JVal.str "1.b4")].Perm
      [("moves", JVal.str "1.b4"), ("eco", JVal.str "A00"),
       ("name", JVal.str "Polish")] :=
    (List.Perm.cons _ hswap1).trans (List.Perm.swap _ _ _)
  have hkp : entryKeyPerm polish polishReordered := ⟨hperm, by decide⟩
  exact c9_deterministic_and_key_order_irrelevant.2.1 "t" [polish] [polishReordered]
    ⟨hkp, trivial⟩
